import Mathlib

/-!
Verification development for the moltbot memory indexing / hybrid-retrieval
engine.  The definitions below are a shallow embedding of the TypeScript
sources under `src/memory/` (`manager-search.ts`, `sync-scribe-files.ts`,
`claude-session-files.ts`): pure functions become Lean functions, the sqlite
tables become explicit lists of rows with SQL `WHERE` clauses evaluated under
SQL three-valued-logic semantics, and platform primitives (the JSON parser,
the sha256 digest, the embedding provider's cosine similarity) become
function parameters.
-/

/-! ### JavaScript string primitives -/

/-- Characters removed by JavaScript `String.prototype.trim` (WhiteSpace and
LineTerminator code points). -/
def isJsWhitespace (c : Char) : Bool :=
  c = ' ' || c = '\t' || c = '\n' || c = '\r' ||
  c.val = 0x0b || c.val = 0x0c ||
  c.val = 0xa0 || c.val = 0x1680 ||
  (0x2000 ≤ c.val && c.val ≤ 0x200a) ||
  c.val = 0x2028 || c.val = 0x2029 || c.val = 0x202f ||
  c.val = 0x205f || c.val = 0x3000 || c.val = 0xfeff

/-- Truthiness of `!s.trim()` in JavaScript: the string trims to the empty
string, i.e. every character is whitespace. -/
def jsTrimEmpty (s : String) : Bool := s.toList.all isJsWhitespace

/-- JavaScript regular-expression line terminators, which `.` never matches. -/
def isJsLineTerminator (c : Char) : Bool :=
  c = '\n' || c = '\r' || c.val = 0x2028 || c.val = 0x2029

/-- Model of `Array.prototype.join(sep)` on a list of strings. -/
def joinLines (sep : String) : List String → String
  | [] => ""
  | [x] => x
  | x :: y :: xs => x ++ sep ++ joinLines sep (y :: xs)

/-- Whether the first list is an initial segment of the second (used to scan
for a fixed marker token inside a character list). -/
def startsWithChars : List Char → List Char → Bool
  | [], _ => true
  | _ :: _, [] => false
  | p :: ps, c :: cs => p = c && startsWithChars ps cs

/-! ### node:path primitives (POSIX)

`extractProjectSlug` computes `path.basename(path.dirname(sessionPath))`.
The two functions below mirror Node's POSIX implementations. -/

/-- Model of POSIX `path.basename(p)`: the last path segment, ignoring
trailing slashes. -/
def pathBasename (p : String) : String :=
  ⟨((p.toList.reverse.dropWhile (· = '/')).takeWhile (· ≠ '/')).reverse⟩

/-- Model of POSIX `path.dirname(p)`: Node scans from the end, skips trailing
slashes and the final segment, and cuts just before the separating slash
(found only at index ≥ 1), with special cases for root-anchored paths. -/
def pathDirname (p : String) : String :=
  if p = "" then "."
  else
    let cs := p.toList
    let hasRoot := cs.head? = some '/'
    let rest := (cs.reverse.dropWhile (· = '/')).dropWhile (· ≠ '/')
    if rest.length ≤ 1 then (if hasRoot then "/" else ".")
    else if hasRoot ∧ rest.length = 2 then "//"
    else ⟨cs.take (rest.length - 1)⟩

/-- Model of Node `path.basename(p, ".jsonl")`: the basename with the
extension removed when it is a proper suffix of the basename. -/
def pathBasenameNoJsonl (p : String) : String :=
  let b := pathBasename p
  if b.endsWith ".jsonl" ∧ b ≠ ".jsonl" then b.dropRight 6 else b

/-! ### Project slug extraction (claude-session-files.ts) -/

/-- The marker token scanned for by the regex `/projects-(.+)$/`. -/
def projectsMarker : List Char := "projects-".toList

/-- Leftmost match of the regex `/projects-(.+)$/` against a character list:
the engine tries each start position from the left; a position matches when
the marker starts there and is followed by a non-empty run of
non-line-terminator characters reaching the end of the string (`.` does not
match line terminators, and `$` only matches at the very end). -/
def markerCapture : List Char → Option (List Char)
  | [] => none
  | c :: cs =>
    let rest := (c :: cs).drop projectsMarker.length
    if startsWithChars projectsMarker (c :: cs)
        ∧ rest ≠ [] ∧ rest.all (fun d => !isJsLineTerminator d) then
      some rest
    else
      markerCapture cs

/-- Embedding of `extractProjectSlug` (claude-session-files.ts): match the
parent directory's name against `/projects-(.+)$/` and fall back to the raw
directory name when the regex does not match. -/
def extractProjectSlug (sessionPath : String) : String :=
  let dirName := pathBasename (pathDirname sessionPath)
  match markerCapture dirName.toList with
  | some tailChars => ⟨tailChars⟩
  | none => dirName

/-- The suffix following the first occurrence of the marker token in a
character list, `none` when the marker does not occur at all. -/
def firstMarkerSuffix : List Char → Option (List Char)
  | [] => none
  | c :: cs =>
    if startsWithChars projectsMarker (c :: cs) then
      some ((c :: cs).drop projectsMarker.length)
    else firstMarkerSuffix cs

/-- C9's reading of the spec sentence: the suffix of the directory name that
follows the (first occurrence of the) marker token `projects-`; the raw
directory name only when the marker is absent. -/
def slugClaimC9 (dirName : String) : String :=
  match firstMarkerSuffix dirName.toList with
  | some suffixChars => ⟨suffixChars⟩
  | none => dirName

/-- Whether the regex `/projects-(.+)$/` can match starting at index `i` of
`cs`: the marker occurs there followed by a non-empty, line-terminator-free
suffix reaching the end of the string. -/
def viableMarkerAt (cs : List Char) (i : Nat) : Bool :=
  startsWithChars projectsMarker (cs.drop i)
    && decide (cs.drop (i + projectsMarker.length) ≠ [])
    && (cs.drop (i + projectsMarker.length)).all (fun d => !isJsLineTerminator d)

/-- The amended C9 spec: the suffix after the first occurrence of the marker
that is followed by a non-empty suffix free of line terminators; the raw
directory name when no such occurrence exists. -/
def slugAmendedC9 (dirName : String) : String :=
  let cs := dirName.toList
  match (List.range cs.length).find? (viableMarkerAt cs) with
  | some i => ⟨cs.drop (i + projectsMarker.length)⟩
  | none => dirName

/-! ### Claude session JSONL model (claude-session-files.ts) -/

/-- One block inside an array-valued `message.content`.  `text = none` models
an absent or non-string `text` field (the code checks
`typeof block.text === "string"`). -/
structure ContentBlock where
  type : String
  text : Option String
deriving DecidableEq

/-- The two runtime shapes of `message.content` the code handles: a plain
string or an array of typed blocks. -/
inductive MessageContent where
  | str (s : String)
  | blocks (bs : List ContentBlock)
deriving DecidableEq

/-- The nested `message` object of a transcript line. -/
structure ClaudeMessage where
  role : Option String
  content : Option MessageContent
deriving DecidableEq

/-- A parsed JSONL line of a Claude Code session file (`ClaudeJsonlLine`). -/
structure ClaudeJsonlLine where
  type : String
  sessionId : Option String
  message : Option ClaudeMessage
deriving DecidableEq

/-- JavaScript truthiness of `line.message?.content`: `undefined`, `null` and
the empty string are falsy; arrays are always truthy. -/
def contentTruthy : Option MessageContent → Bool
  | none => false
  | some (.str s) => s ≠ ""
  | some (.blocks _) => true

/-- The strings one transcript line pushes onto `parts` in
`extractClaudeSessionText`: nothing for non-user/assistant lines or falsy
content; the whole string for string content; the `text` of each
`type = "text"` block for array content. -/
def lineTextParts (line : ClaudeJsonlLine) : List String :=
  if line.type ≠ "user" ∧ line.type ≠ "assistant" then []
  else
    let content := line.message.bind (·.content)
    if ¬ contentTruthy content then []
    else
      match content with
      | some (.str s) => [s]
      | some (.blocks bs) =>
          bs.filterMap (fun b =>
            if b.type = "text" then
              match b.text with
              | some t => some t
              | none => none
            else none)
      | none => []

/-- Embedding of `extractClaudeSessionText`: the collected parts joined with
the fixed separator. -/
def extractClaudeSessionText (lines : List ClaudeJsonlLine) : String :=
  joinLines "\n\n" (lines.flatMap lineTextParts)

/-- C4's reading of the spec sentence for one line: whole string
`message.content` values, and the text fields of `type = "text"` blocks, from
lines whose top-level type is `user` or `assistant`. -/
def claimC4Parts (line : ClaudeJsonlLine) : List String :=
  if line.type = "user" ∨ line.type = "assistant" then
    match line.message with
    | none => []
    | some m =>
      match m.content with
      | some (.str s) => [s]
      | some (.blocks bs) =>
          bs.filterMap (fun b => if b.type = "text" then b.text else none)
      | none => []
  else []

/-- C4's reading of the spec sentence: the per-line contributions in file
order joined with the fixed separator. -/
def claimC4Text (lines : List ClaudeJsonlLine) : String :=
  joinLines "\n\n" (lines.flatMap claimC4Parts)

/-- The amended C4 spec for one line: as `claimC4Parts` except that an empty
string `message.content` contributes nothing. -/
def claimC4AmendedParts (line : ClaudeJsonlLine) : List String :=
  if line.type = "user" ∨ line.type = "assistant" then
    match line.message with
    | none => []
    | some m =>
      match m.content with
      | some (.str s) => if s = "" then [] else [s]
      | some (.blocks bs) =>
          bs.filterMap (fun b => if b.type = "text" then b.text else none)
      | none => []
  else []

/-- The amended C4 spec: per-line contributions joined with the separator. -/
def claimC4AmendedText (lines : List ClaudeJsonlLine) : String :=
  joinLines "\n\n" (lines.flatMap claimC4AmendedParts)

/-- The lines contributed to `extractClaudeSessionText` by
`buildClaudeSessionEntry`: each non-blank raw line is fed to the JSON parser
(the platform primitive, passed as `jsonParse`; `none` models a parse
exception, which the loop swallows). -/
def parsedSessionLines (jsonParse : String → Option ClaudeJsonlLine)
    (rawLines : List String) : List ClaudeJsonlLine :=
  rawLines.filterMap (fun l => if jsTrimEmpty l then none else jsonParse l)

/-- The `sessionId` selected while scanning: the first truthy `sessionId`
among the successfully parsed lines (`if (!sessionId && parsed.sessionId)`). -/
def sessionIdOfLines (jsonParse : String → Option ClaudeJsonlLine)
    (rawLines : List String) : Option String :=
  (parsedSessionLines jsonParse rawLines).findSome? (fun pl =>
    match pl.sessionId with
    | some s => if s = "" then none else some s
    | none => none)

/-- The entry produced for one session file. -/
structure ClaudeSessionEntry where
  path : String
  content : String
  hash : String
  project : String
  claudeSessionId : String
deriving DecidableEq

/-- Embedding of `buildClaudeSessionEntry`.  The file is `none` when
unreadable (`fs.readFile` threw), otherwise the list of lines produced by
`raw.split("\n")`; `hashFn` models the sha256 hex digest.  The code returns
`null` when the raw content trims to nothing or when no text is extracted. -/
def buildClaudeSessionEntry (jsonParse : String → Option ClaudeJsonlLine)
    (hashFn : String → String) (absPath : String)
    (file : Option (List String)) : Option ClaudeSessionEntry :=
  match file with
  | none => none
  | some rawLines =>
    if jsTrimEmpty (joinLines "\n" rawLines) then none
    else
      let content := extractClaudeSessionText (parsedSessionLines jsonParse rawLines)
      if content = "" then none
      else
        some {
          path := absPath
          content := content
          hash := hashFn content
          project := extractProjectSlug absPath
          claudeSessionId := (sessionIdOfLines jsonParse rawLines).getD (pathBasenameNoJsonl absPath)
        }

/-! ### Persistent store rows (memory-schema) -/

/-- A row of the `chunks` table.  The `embedding` column is stored as JSON
text and decoded by `parseEmbedding`; rows here carry the decoded vector. -/
structure ChunkRow where
  id : String
  path : String
  source : String
  project : Option String
  startLine : Int
  endLine : Int
  hash : String
  model : String
  text : String
  embedding : List ℚ
  updatedAt : Int
deriving DecidableEq

/-- A row of the vector-index table (keyed by chunk id). -/
structure VecRow where
  id : String
  embedding : List ℚ
deriving DecidableEq

/-- A row of the full-text index table (`chunks_fts`). -/
structure FtsRow where
  id : String
  path : String
  source : String
  model : String
  startLine : Int
  endLine : Int
  text : String
deriving DecidableEq

/-- The searchable state of the store: the three tables touched by the
query engine. -/
structure SearchDb where
  chunks : List ChunkRow
  vec : List VecRow
  fts : List FtsRow
deriving DecidableEq

/-! ### SQL three-valued logic

sqlite's `WHERE` keeps a row only when the predicate evaluates to true;
comparisons against `NULL` evaluate to `NULL` (modelled as `none`). -/

/-- SQL equality between a nullable column value and a nullable parameter. -/
def sqlEq (a b : Option String) : Option Bool :=
  match a, b with
  | some x, some y => some (x = y)
  | _, _ => none

/-- SQL `IS NULL`, which is never itself `NULL`. -/
def sqlIsNull (a : Option String) : Option Bool := some (a = none)

/-- SQL `OR` over three-valued operands. -/
def sqlOr (a b : Option Bool) : Option Bool :=
  match a, b with
  | some true, _ => some true
  | _, some true => some true
  | some false, some false => some false
  | _, _ => none

/-- Whether a `WHERE` predicate keeps the row: it must evaluate to true. -/
def sqlTrue (a : Option Bool) : Bool := a = some true

/-! ### buildProjectFilter and the query paths (manager-search.ts) -/

/-- The `{sql, params}` pair returned by `buildProjectFilter`: `active` records
whether the fragment ` AND (project = ? OR ? IS NULL)` was emitted, and
`params` the bound parameters in order. -/
structure SqlFilter where
  active : Bool
  params : List (Option String)
deriving DecidableEq

/-- Embedding of `buildProjectFilter`: an undefined project yields the empty
fragment; a requested project `p` yields the fragment
` AND (project = ? OR ? IS NULL)` with parameters `[p, p]`. -/
def buildProjectFilter : Option String → SqlFilter
  | none => ⟨false, []⟩
  | some p => ⟨true, [some p, some p]⟩

/-- Evaluation of the emitted fragment on a row's `project` column: the first
placeholder is compared with the column, the second placeholder (not the
column) is tested with `IS NULL`. -/
def projectFilterPasses (f : SqlFilter) (rowProject : Option String) : Bool :=
  if f.active then
    sqlTrue (sqlOr (sqlEq rowProject (f.params.getD 0 none))
                   (sqlIsNull (f.params.getD 1 none)))
  else true

/-- Embedding of `listChunks`: all `chunks` rows of the active model passing
the injected source filter (an opaque SQL fragment, modelled as a row
predicate) and the project filter; the absent optional `projectFilter`
argument corresponds to the inactive filter. -/
def listChunks (db : SearchDb) (providerModel : String)
    (sourceFilter : ChunkRow → Bool) (projectFilter : SqlFilter) : List ChunkRow :=
  db.chunks.filter (fun c =>
    c.model = providerModel && sourceFilter c
      && projectFilterPasses projectFilter c.project)

/-! ### Ordering helpers (JS stable sort / SQL ORDER BY) -/

/-- Stable insertion for descending order by a rational key (the JS
`sort((a, b) => b.score - a.score)` comparator). -/
def insertDescBy {α : Type} (key : α → ℚ) (x : α) : List α → List α
  | [] => [x]
  | y :: ys => if key x < key y then y :: insertDescBy key x ys else x :: y :: ys

/-- Stable sort, descending by a rational key. -/
def sortDescBy {α : Type} (key : α → ℚ) : List α → List α
  | [] => []
  | x :: xs => insertDescBy key x (sortDescBy key xs)

/-- Stable insertion for ascending order by a rational key (SQL
`ORDER BY … ASC`). -/
def insertAscBy {α : Type} (key : α → ℚ) (x : α) : List α → List α
  | [] => [x]
  | y :: ys => if key y ≤ key x then y :: insertAscBy key x ys else x :: y :: ys

/-- Stable sort, ascending by a rational key. -/
def sortAscBy {α : Type} (key : α → ℚ) : List α → List α
  | [] => []
  | x :: xs => insertAscBy key x (sortAscBy key xs)

/-- A search result row (`SearchRowResult`). -/
structure SearchRowResult where
  id : String
  path : String
  startLine : Int
  endLine : Int
  score : ℚ
  snippet : String
  source : String
deriving DecidableEq

/-- Modelled from the spec: `truncateUtf16Safe` (src/utils.ts, outside the
analyzed excerpt) produces a length-bounded snippet truncated on a safe text
unit boundary; modelled as a character prefix of bounded length. -/
def truncateUtf16Safe (s : String) (maxChars : Nat) : String :=
  ⟨s.toList.take maxChars⟩

/-- Embedding of `searchVector`.  `vectorReady` is the awaited result of
`ensureVectorReady(queryVec.length)`; `vecDist` models sqlite's
`vec_distance_cosine`; `sim` models `cosineSimilarity` from
src/memory/internal.ts (outside the analyzed excerpt), with `none` standing
for a non-finite score rejected by `Number.isFinite`.  The two source-filter
fragments are modelled as row predicates. -/
def searchVector (sim : List ℚ → List ℚ → Option ℚ)
    (vecDist : List ℚ → List ℚ → ℚ)
    (db : SearchDb) (providerModel : String) (queryVec : List ℚ)
    (limit : Int) (snippetMaxChars : Nat) (vectorReady : Bool)
    (sourceFilterVec : ChunkRow → Bool) (sourceFilterChunks : ChunkRow → Bool)
    (project : Option String) : List SearchRowResult :=
  if queryVec = [] ∨ limit ≤ 0 then []
  else
    let projectFilter := buildProjectFilter project
    if vectorReady then
      let joined := db.vec.flatMap (fun v =>
        (db.chunks.filter (fun c => c.id = v.id)).map (fun c => (v, c)))
      let matched := joined.filter (fun vc =>
        vc.2.model = providerModel && sourceFilterVec vc.2
          && projectFilterPasses projectFilter vc.2.project)
      let ordered := sortAscBy (fun vc => vecDist vc.1.embedding queryVec) matched
      (ordered.take limit.toNat).map (fun vc =>
        { id := vc.2.id
          path := vc.2.path
          startLine := vc.2.startLine
          endLine := vc.2.endLine
          score := 1 - vecDist vc.1.embedding queryVec
          snippet := truncateUtf16Safe vc.2.text snippetMaxChars
          source := vc.2.source })
    else
      let candidates := listChunks db providerModel sourceFilterChunks (buildProjectFilter project)
      let scored := candidates.filterMap (fun c =>
        (sim queryVec c.embedding).map (fun s => (c, s)))
      let ordered := sortDescBy (fun cs => cs.2) scored
      (ordered.take limit.toNat).map (fun cs =>
        { id := cs.1.id
          path := cs.1.path
          startLine := cs.1.startLine
          endLine := cs.1.endLine
          score := cs.2
          snippet := truncateUtf16Safe cs.1.text snippetMaxChars
          source := cs.1.source })

/-- Embedding of `searchKeyword`, returning each result row paired with its
`textScore`.  `ftsMatchQ` models the `MATCH` operator, `bm25Rank` the
`bm25(table)` rank of a row; `buildFtsQuery` and `bm25RankToScore` are the
callback parameters of the TypeScript function.  The guard `if (!ftsQuery)`
is also true for the empty string. -/
def searchKeyword (ftsMatchQ : String → FtsRow → Bool) (bm25Rank : FtsRow → ℚ)
    (db : SearchDb) (providerModel : String) (rawQuery : String)
    (limit : Int) (snippetMaxChars : Nat)
    (sourceFilter : FtsRow → Bool)
    (buildFtsQuery : String → Option String)
    (bm25RankToScore : ℚ → ℚ)
    (project : Option String) : List (SearchRowResult × ℚ) :=
  if limit ≤ 0 then []
  else
    match buildFtsQuery rawQuery with
    | none => []
    | some ftsQuery =>
      if ftsQuery = "" then []
      else
        let projectFilter := buildProjectFilter project
        let rowsJoined :=
          (db.fts.flatMap (fun f =>
            (db.chunks.filter (fun c => c.id = f.id)).map (fun c => (f, c)))).filter
            (fun fc =>
              ftsMatchQ ftsQuery fc.1 && fc.1.model = providerModel
                && sourceFilter fc.1 && projectFilterPasses projectFilter fc.2.project)
        let rowsPlain := db.fts.filter (fun f =>
          ftsMatchQ ftsQuery f && f.model = providerModel && sourceFilter f)
        let rows :=
          if project.isSome then
            (sortAscBy (fun fc => bm25Rank fc.1) rowsJoined).take limit.toNat |>.map (·.1)
          else
            (sortAscBy bm25Rank rowsPlain).take limit.toNat
        rows.map (fun f =>
          ({ id := f.id
             path := f.path
             startLine := f.startLine
             endLine := f.endLine
             score := bm25RankToScore (bm25Rank f)
             snippet := truncateUtf16Safe f.text snippetMaxChars
             source := f.source }, bm25RankToScore (bm25Rank f)))

/-! ### Incremental sync of scribe files (sync-scribe-files.ts) -/

/-- A row of the `files` table (columns used by the sync controller). -/
structure FileRow where
  path : String
  source : String
  hash : String
deriving DecidableEq

/-- The store state touched by `syncScribeFiles`: the four tables it reads
and deletes from. -/
structure SyncDb where
  files : List FileRow
  chunks : List ChunkRow
  vec : List VecRow
  fts : List FtsRow
deriving DecidableEq

/-- A scribe source entry (`ScribeFileEntry`). -/
structure ScribeFileEntry where
  path : String
  content : String
  hash : String
  project : String
deriving DecidableEq

/-- A markdown file as found on disk by the scribe adapter; `content = none`
models an unreadable file (`fs.readFile` threw). -/
structure ScribeFsFile where
  absPath : String
  project : String
  content : Option String
deriving DecidableEq

/-- Embedding of `buildScribeFileEntry`: `null` for unreadable or
whitespace-only content, otherwise the entry with the sha256 digest of the
content (`hashFn` models the digest). -/
def buildScribeFileEntry (hashFn : String → String)
    (f : ScribeFsFile) : Option ScribeFileEntry :=
  match f.content with
  | none => none
  | some c =>
    if jsTrimEmpty c then none
    else some { path := f.absPath, content := c, hash := hashFn c, project := f.project }

/-- Model of `SELECT hash FROM files WHERE path = ? AND source = ?` followed
by `.get` (the first matching row). -/
def getFileHash (db : SyncDb) (p src : String) : Option String :=
  (db.files.find? (fun r => r.path = p && r.source = src)).map (·.hash)

/-- The decision made by one per-file task of `syncScribeFiles`: `none` when
the task returns without calling `indexFile` (unreadable/empty file, or
incremental sync with an unchanged stored hash), otherwise the entry that is
passed to `indexFile`. -/
def scribeTaskIndexes (hashFn : String → String) (db : SyncDb)
    (needsFullReindex : Bool) (f : ScribeFsFile) : Option ScribeFileEntry :=
  match buildScribeFileEntry hashFn f with
  | none => none
  | some entry =>
    if needsFullReindex = false ∧ getFileHash db entry.path "scribe" = some entry.hash then
      none
    else some entry

/-- The entries for which a sync pass over `corpus` invokes `indexFile`.  The
bounded-concurrency fan-out never reorders or drops tasks and each task only
touches its own path's rows, so membership in this list is exactly "indexFile
was invoked for this file". -/
def syncScribeIndexedEntries (hashFn : String → String) (db : SyncDb)
    (needsFullReindex : Bool) (corpus : List ScribeFsFile) : List ScribeFileEntry :=
  corpus.filterMap (scribeTaskIndexes hashFn db needsFullReindex)

/-- One iteration of the stale-record cleanup loop of `syncScribeFiles` for a
stale path: delete the `files` row, then the vector-index rows whose id is a
chunk id of that path (the chunks are still present when this subquery runs),
then the chunks, and the full-text rows only when FTS is both enabled and
available — and then only for the active model. -/
def reconcileScribeStep (ftsEnabled ftsAvailable : Bool) (model : String)
    (st : SyncDb) (stalePath : String) : SyncDb :=
  let staleIds := (st.chunks.filter (fun c =>
    decide (c.path = stalePath ∧ c.source = "scribe"))).map (·.id)
  { files := st.files.filter (fun r => decide (¬(r.path = stalePath ∧ r.source = "scribe")))
    vec := st.vec.filter (fun v => decide (v.id ∉ staleIds))
    chunks := st.chunks.filter (fun c => decide (¬(c.path = stalePath ∧ c.source = "scribe")))
    fts :=
      if ftsEnabled && ftsAvailable then
        st.fts.filter (fun f =>
          decide (¬(f.path = stalePath ∧ f.source = "scribe" ∧ f.model = model)))
      else st.fts }

/-- The stale-record reconciliation of `syncScribeFiles`, run only after all
of the source's per-file index tasks have finished: the paths of all `files`
rows with source `"scribe"` are listed once up front, those still reported by
the adapter (`activePaths`) are skipped, and the cleanup loop runs over the
rest. -/
def reconcileScribeStale (ftsEnabled ftsAvailable : Bool) (model : String)
    (db : SyncDb) (activePaths : List String) : SyncDb :=
  let stale := ((db.files.filter (fun r => decide (r.source = "scribe"))).map (·.path)).filter
    (fun p => decide (p ∉ activePaths))
  stale.foldl (reconcileScribeStep ftsEnabled ftsAvailable model) db

/-- The invariant claimed by C5: every row of the vector index and of the
full-text index corresponds to a live chunk. -/
def danglingFreeIndices (db : SyncDb) : Prop :=
  (∀ v ∈ db.vec, ∃ c ∈ db.chunks, c.id = v.id) ∧
  (∀ f ∈ db.fts, ∃ c ∈ db.chunks, c.id = f.id)

/-! ### Concrete states used by counterexamples and witnesses -/

/-- A chunk whose `project` column is NULL, under model `m`. -/
def nullProjectChunk : ChunkRow :=
  { id := "chunk-c1", path := "file-c.md", source := "memory", project := none
    startLine := 1, endLine := 10, hash := "hash3", model := "mock-model"
    text := "Alpha content with no project", embedding := [1, 0], updatedAt := 0 }

/-- A store holding only a NULL-project chunk (the C1 counterexample state). -/
def dbNullOnly : SearchDb := { chunks := [nullProjectChunk], vec := [], fts := [] }

/-- The three chunks of the project-filter scenario: projects `"project-a"`,
`"project-b"` and NULL, all under the same model, as in
manager-search.test.ts. -/
def chunkA : ChunkRow :=
  { id := "chunk-a1", path := "file-a.md", source := "memory", project := some "project-a"
    startLine := 1, endLine := 10, hash := "hash1", model := "mock-model"
    text := "Alpha content for project A", embedding := [1, 0], updatedAt := 0 }

/-- The `"project-b"` chunk of the scenario. -/
def chunkB : ChunkRow :=
  { id := "chunk-b1", path := "file-b.md", source := "memory", project := some "project-b"
    startLine := 1, endLine := 10, hash := "hash2", model := "mock-model"
    text := "Alpha content for project B", embedding := [1, 0], updatedAt := 0 }

/-- The three-chunk store of the project-filter scenario. -/
def dbThreeProjects : SearchDb :=
  { chunks := [chunkA, chunkB, nullProjectChunk], vec := [], fts := [] }

/-- A scribe chunk used by the stale-cleanup scenarios. -/
def scribeChunk : ChunkRow :=
  { id := "c1", path := "/home/u/projects/r/context/a.md", source := "scribe", project := some "r"
    startLine := 1, endLine := 5, hash := "h1", model := "m"
    text := "alpha", embedding := [], updatedAt := 0 }

/-- A full-text row for `scribeChunk` under model `m`. -/
def scribeFtsRow : FtsRow :=
  { id := "c1", path := "/home/u/projects/r/context/a.md", source := "scribe"
    model := "m", startLine := 1, endLine := 5, text := "alpha" }

/-- A store holding one scribe file with one chunk and its full-text row, and
no vector rows (the C5 counterexample state). -/
def dbScribeOne : SyncDb :=
  { files := [{ path := "/home/u/projects/r/context/a.md", source := "scribe", hash := "h1" }]
    chunks := [scribeChunk]
    vec := []
    fts := [scribeFtsRow] }

/-- A store with one scribe file/chunk/vector row and one row of another
source (the C6 witness state). -/
def dbScribeAndMemory : SyncDb :=
  { files := [{ path := "/home/u/projects/r/context/a.md", source := "scribe", hash := "h1" },
              { path := "notes.md", source := "memory", hash := "h2" }]
    chunks := [scribeChunk]
    vec := [{ id := "c1", embedding := [] }]
    fts := [scribeFtsRow] }

/-- An on-disk scribe file whose content hashes (under the identity digest
stand-in) to the stored hash of `dbScribeOne` (the C3 witness state). -/
def scribeFsUnchanged : ScribeFsFile :=
  { absPath := "/home/u/projects/r/context/a.md", project := "r", content := some "h1" }

/-- The transcript lines of the C4 counterexample: a user line whose string
content is empty followed by a user line with string content "hi". -/
def c4ExampleLines : List ClaudeJsonlLine :=
  [ { type := "user", sessionId := none
      message := some { role := none, content := some (.str "") } },
    { type := "user", sessionId := none
      message := some { role := none, content := some (.str "hi") } } ]

/-- Coherence of the vector index with the chunks table: every vector row
belongs to a live chunk. -/
def vecIndexCoherent (db : SyncDb) : Prop :=
  ∀ v ∈ db.vec, ∃ c ∈ db.chunks, c.id = v.id

/-- Coherence of the full-text index with the chunks table under the active
model: every full-text row is the projection of a live chunk and carries the
active model. -/
def ftsIndexCoherent (db : SyncDb) (model : String) : Prop :=
  ∀ f ∈ db.fts, ∃ c ∈ db.chunks,
    c.id = f.id ∧ c.path = f.path ∧ c.source = f.source ∧ f.model = model

/-! ### Helper lemmas -/

/-- The emitted project-filter fragment with a non-null bound parameter `p`
keeps exactly the rows whose `project` column equals `p`: the `? IS NULL`
disjunct tests the parameter, never the column, so it is always false here,
and `project = ?` is not true on a NULL column. -/
theorem projectFilterPasses_some (p : String) (proj : Option String) :
    projectFilterPasses (buildProjectFilter (some p)) proj = true ↔ proj = some p := by
  cases proj with
  | none =>
    simp [projectFilterPasses, buildProjectFilter, sqlTrue, sqlOr, sqlEq, sqlIsNull]
  | some q =>
    by_cases hq : q = p <;>
      simp [projectFilterPasses, buildProjectFilter, sqlTrue, sqlOr, sqlEq, sqlIsNull, hq]

/-- Stable descending insertion permutes. -/
theorem insertDescBy_perm {α : Type} (key : α → ℚ) (x : α) (l : List α) :
    (insertDescBy key x l).Perm (x :: l) := by
  induction l with
  | nil => simp [insertDescBy]
  | cons y ys ih =>
    by_cases h : key x < key y
    · simp only [insertDescBy, if_pos h]
      exact (ih.cons y).trans (List.Perm.swap x y ys)
    · simp [insertDescBy, if_neg h]

/-- Stable descending sort permutes. -/
theorem sortDescBy_perm {α : Type} (key : α → ℚ) (l : List α) :
    (sortDescBy key l).Perm l := by
  induction l with
  | nil => simp [sortDescBy]
  | cons x xs ih => exact (insertDescBy_perm key x (sortDescBy key xs)).trans (ih.cons x)

/-! ### C1 — project filter vs NULL-project chunks -/

/-- C1 counterexample: the claim says a non-null requested project keeps every
NULL-project chunk in the candidate set; but on a store whose only chunk of
the active model has a NULL project, filtering by project "project-a" leaves
the candidate set empty and the vector search returns nothing. -/
theorem c1_counterexample :
    nullProjectChunk ∈ dbNullOnly.chunks ∧
    nullProjectChunk.project = none ∧
    nullProjectChunk.model = "mock-model" ∧
    nullProjectChunk ∉ listChunks dbNullOnly "mock-model" (fun _ => true)
      (buildProjectFilter (some "project-a")) ∧
    searchVector (fun _ _ => some 1) (fun _ _ => 0) dbNullOnly "mock-model" [1, 0]
      10 500 false (fun _ => true) (fun _ => true) (some "project-a") = [] := by
  refine ⟨by decide, by decide, by decide, by decide, by decide⟩

/-- C1 amended: a non-null requested project admits exactly the chunks whose
project equals the requested value — chunks whose project is NULL are
excluded, on the vector candidate set and on the shared project-filter
predicate used by the keyword path alike. -/
theorem c1_amended (db : SearchDb) (providerModel p : String)
    (srcF : ChunkRow → Bool) (c : ChunkRow) :
    (c ∈ listChunks db providerModel srcF (buildProjectFilter (some p)) ↔
      c ∈ db.chunks ∧ c.model = providerModel ∧ srcF c = true ∧ c.project = some p) ∧
    (∀ proj : Option String,
      projectFilterPasses (buildProjectFilter (some p)) proj = true ↔ proj = some p) := by
  refine ⟨?_, fun proj => projectFilterPasses_some p proj⟩
  rw [listChunks, List.mem_filter]
  simp only [Bool.and_eq_true, decide_eq_true_eq, projectFilterPasses_some]
  tauto

/-! ### C10 — degenerate-input guards of the two search paths -/

/-- C10: an empty query vector or a non-positive limit makes `searchVector`
return the empty list, and a non-positive limit or a `null` from the FTS
query builder makes `searchKeyword` return the empty list; the result is the
same for every store state, which captures that no database query runs in
these cases. -/
theorem c10_search_guards (sim : List ℚ → List ℚ → Option ℚ)
    (vecDist : List ℚ → List ℚ → ℚ)
    (ftsMatchQ : String → FtsRow → Bool) (bm25Rank : FtsRow → ℚ)
    (db : SearchDb) (providerModel rawQuery : String) (queryVec : List ℚ)
    (limit : Int) (snippetMaxChars : Nat) (vectorReady : Bool)
    (srcVec srcChunks : ChunkRow → Bool) (srcFts : FtsRow → Bool)
    (buildFtsQuery : String → Option String) (bm25RankToScore : ℚ → ℚ)
    (project : Option String) :
    (queryVec = [] ∨ limit ≤ 0 →
      searchVector sim vecDist db providerModel queryVec limit snippetMaxChars
        vectorReady srcVec srcChunks project = []) ∧
    (limit ≤ 0 ∨ buildFtsQuery rawQuery = none →
      searchKeyword ftsMatchQ bm25Rank db providerModel rawQuery limit snippetMaxChars
        srcFts buildFtsQuery bm25RankToScore project = []) := by
  constructor
  · intro h
    rw [searchVector, if_pos h]
  · intro h
    rcases h with h | h
    · rw [searchKeyword, if_pos h]
    · by_cases hl : limit ≤ 0
      · rw [searchKeyword, if_pos hl]
      · rw [searchKeyword, if_neg hl, h]

/-- Witness for C10 at concrete degenerate inputs. -/
theorem c10_search_guards_witness :
    searchVector (fun _ _ => none) (fun _ _ => 0) dbNullOnly "mock-model" [] 5 100 false
      (fun _ => true) (fun _ => true) none = [] ∧
    searchKeyword (fun _ _ => false) (fun _ => 0) dbNullOnly "mock-model" "query" 5 100
      (fun _ => true) (fun _ => none) (fun r => r) none = [] :=
  ⟨(c10_search_guards (fun _ _ => none) (fun _ _ => 0) (fun _ _ => false) (fun _ => 0)
      dbNullOnly "mock-model" "query" [] 5 100 false (fun _ => true) (fun _ => true)
      (fun _ => true) (fun _ => none) (fun r => r) none).1 (Or.inl rfl),
   (c10_search_guards (fun _ _ => none) (fun _ _ => 0) (fun _ _ => false) (fun _ => 0)
      dbNullOnly "mock-model" "query" [] 5 100 false (fun _ => true) (fun _ => true)
      (fun _ => true) (fun _ => none) (fun r => r) none).2 (Or.inr rfl)⟩

/-! ### C3 — unchanged files are skipped by the incremental sync -/

/-- C3: during an incremental sync (`needsFullReindex = false`), a file whose
freshly computed content hash equals the hash stored for its (path, source)
pair is skipped entirely — its task never calls `indexFile` — and when every
file of the corpus is unchanged in this sense (the state after a successful
sync), `indexFile` is invoked for no file at all.  The embedding provider is
only reached through `indexFile`, so it is not called for skipped files. -/
theorem c3_unchanged_files_skipped (hashFn : String → String) (db : SyncDb)
    (corpus : List ScribeFsFile) :
    (∀ (f : ScribeFsFile) (entry : ScribeFileEntry),
      buildScribeFileEntry hashFn f = some entry →
      getFileHash db entry.path "scribe" = some entry.hash →
      scribeTaskIndexes hashFn db false f = none) ∧
    ((∀ f ∈ corpus, ∀ entry : ScribeFileEntry,
        buildScribeFileEntry hashFn f = some entry →
        getFileHash db entry.path "scribe" = some entry.hash) →
      syncScribeIndexedEntries hashFn db false corpus = []) := by
  have hTask : ∀ f : ScribeFsFile,
      (∀ entry : ScribeFileEntry, buildScribeFileEntry hashFn f = some entry →
        getFileHash db entry.path "scribe" = some entry.hash) →
      scribeTaskIndexes hashFn db false f = none := by
    intro f h
    unfold scribeTaskIndexes
    cases hb : buildScribeFileEntry hashFn f with
    | none => rfl
    | some entry => simp [h entry hb]
  constructor
  · intro f entry hb hh
    apply hTask
    intro e he
    rw [hb] at he
    cases he
    exact hh
  · intro h
    unfold syncScribeIndexedEntries
    rw [List.filterMap_eq_nil_iff]
    intro f hf
    exact hTask f (h f hf)

/-- Witness for C3: one scribe file whose content hashes (under the identity
digest stand-in) to the stored hash, so its task skips and the pass indexes
nothing. -/
theorem c3_witness :
    scribeTaskIndexes (fun s => s) dbScribeOne false scribeFsUnchanged = none ∧
    syncScribeIndexedEntries (fun s => s) dbScribeOne false [scribeFsUnchanged] = [] := by
  constructor
  · exact (c3_unchanged_files_skipped (fun s => s) dbScribeOne [scribeFsUnchanged]).1
      scribeFsUnchanged
      { path := "/home/u/projects/r/context/a.md", content := "h1", hash := "h1", project := "r" }
      (by decide) (by decide)
  · refine (c3_unchanged_files_skipped (fun s => s) dbScribeOne [scribeFsUnchanged]).2 ?_
    intro f hf entry he
    simp only [List.mem_singleton] at hf
    subst hf
    rw [show buildScribeFileEntry (fun s => s) scribeFsUnchanged =
      some { path := "/home/u/projects/r/context/a.md", content := "h1",
             hash := "h1", project := "r" } from by decide] at he
    cases he
    decide

/-! ### C4 — transcript text extraction -/

/-- Per-line contributions of the code agree with the amended C4 reading:
the only difference from the literal claim is that an empty string content is
falsy and contributes nothing. -/
theorem lineTextParts_eq_amended (l : ClaudeJsonlLine) :
    lineTextParts l = claimC4AmendedParts l := by
  obtain ⟨t, sid, msg⟩ := l
  by_cases ht : t = "user" ∨ t = "assistant"
  · have ht' : ¬(t ≠ "user" ∧ t ≠ "assistant") := by tauto
    rw [lineTextParts, claimC4AmendedParts]
    simp only [if_neg ht', if_pos ht]
    cases msg with
    | none => simp [contentTruthy]
    | some m =>
      obtain ⟨r, mc⟩ := m
      cases mc with
      | none => simp [contentTruthy]
      | some cnt =>
        cases cnt with
        | str s => by_cases hs : s = "" <;> simp [contentTruthy, hs]
        | blocks bs =>
          have : (fun b : ContentBlock =>
              if b.type = "text" then
                match b.text with
                | some t => some t
                | none => none
              else none) =
              (fun b : ContentBlock => if b.type = "text" then b.text else none) := by
            funext b
            by_cases hb : b.type = "text" <;> cases hbt : b.text <;> simp [hb, hbt]
          simp [contentTruthy, this]
  · have ht' : t ≠ "user" ∧ t ≠ "assistant" := by tauto
    rw [lineTextParts, claimC4AmendedParts]
    simp [ht', ht]

/-- C4 counterexample: a user line whose string `message.content` is the
empty string contributes nothing in the code (the `!content` truthiness check
skips it), while the claim's literal reading concatenates it as a part,
changing the joined result. -/
theorem c4_counterexample :
    extractClaudeSessionText c4ExampleLines = "hi" ∧
    claimC4Text c4ExampleLines = "\n\nhi" ∧
    extractClaudeSessionText c4ExampleLines ≠ claimC4Text c4ExampleLines := by
  refine ⟨by decide, by decide, by decide⟩

/-- C4 amended: `extractClaudeSessionText` returns exactly the concatenation,
in file order and joined with the fixed separator "\n\n", of the non-empty
whole string `message.content` values and the text fields of `type = "text"`
blocks, from lines of top-level type `user` or `assistant`; `tool_use` and
`tool_result` blocks and other top-level types contribute nothing. -/
theorem c4_amended (lines : List ClaudeJsonlLine) :
    extractClaudeSessionText lines = claimC4AmendedText lines := by
  rw [extractClaudeSessionText, claimC4AmendedText]
  congr 1
  induction lines with
  | nil => rfl
  | cons l ls ih => simp [ih, lineTextParts_eq_amended l]

/-! ### C8 — degenerate session files produce no entry -/

/-- C8: `buildClaudeSessionEntry` returns `none` whenever the file is
unreadable, whenever its raw content is empty or whitespace-only, and
whenever no text content is extracted from its parsed lines; each case is an
ordinary early return, not an error. -/
theorem c8_build_entry_none (jsonParse : String → Option ClaudeJsonlLine)
    (hashFn : String → String) (absPath : String) (rawLines : List String) :
    buildClaudeSessionEntry jsonParse hashFn absPath none = none ∧
    (jsTrimEmpty (joinLines "\n" rawLines) = true →
      buildClaudeSessionEntry jsonParse hashFn absPath (some rawLines) = none) ∧
    (extractClaudeSessionText (parsedSessionLines jsonParse rawLines) = "" →
      buildClaudeSessionEntry jsonParse hashFn absPath (some rawLines) = none) := by
  refine ⟨rfl, ?_, ?_⟩
  · intro h
    simp [buildClaudeSessionEntry, h]
  · intro h
    by_cases hw : jsTrimEmpty (joinLines "\n" rawLines) = true
    · simp [buildClaudeSessionEntry, hw]
    · simp [buildClaudeSessionEntry, hw, h]

/-- Witness for C8: a whitespace-only session file yields no entry. -/
theorem c8_build_entry_none_witness :
    buildClaudeSessionEntry (fun _ => none) (fun s => s) "/a/b.jsonl" (some ["  "]) = none :=
  (c8_build_entry_none (fun _ => none) (fun s => s) "/a/b.jsonl" ["  "]).2.1 (by decide)

/-! ### C9 — project slug extraction -/

/-- C9 counterexample: for a session file whose parent directory name ends in
the bare marker (`-home-ben-projects-`), the marker is present and the suffix
following it is empty; the claim's reading returns that empty suffix, but the
regex `/projects-(.+)$/` requires a non-empty capture, so the code falls back
to the whole directory name. -/
theorem c9_counterexample :
    extractProjectSlug "/home/u/.claude/projects/-home-ben-projects-/s.jsonl"
      = "-home-ben-projects-" ∧
    slugClaimC9 "-home-ben-projects-" = "" ∧
    extractProjectSlug "/home/u/.claude/projects/-home-ben-projects-/s.jsonl"
      ≠ slugClaimC9 (pathBasename (pathDirname
          "/home/u/.claude/projects/-home-ben-projects-/s.jsonl")) := by
  refine ⟨by decide, by decide, by decide⟩

/-- Shifting the viability test across a cons cell. -/
theorem viableMarkerAt_succ (c : Char) (cs : List Char) (i : Nat) :
    viableMarkerAt (c :: cs) (i + 1) = viableMarkerAt cs i := by
  have h9 : i + 1 + projectsMarker.length = (i + projectsMarker.length) + 1 := by omega
  simp [viableMarkerAt, h9, List.drop_succ_cons]

/-- The regex scan of `markerCapture` equals the search for the least viable
match position. -/
theorem markerCapture_eq_find (cs : List Char) :
    markerCapture cs = ((List.range cs.length).find? (viableMarkerAt cs)).map
      (fun i => cs.drop (i + projectsMarker.length)) := by
  induction cs with
  | nil => rfl
  | cons c cs ih =>
    have hiff : viableMarkerAt (c :: cs) 0 = true ↔
        (startsWithChars projectsMarker (c :: cs) = true ∧
          (c :: cs).drop projectsMarker.length ≠ [] ∧
          ((c :: cs).drop projectsMarker.length).all (fun d => !isJsLineTerminator d) = true) := by
      simp only [viableMarkerAt, Bool.and_eq_true, decide_eq_true_eq, List.drop_zero,
        Nat.zero_add]
      tauto
    rw [List.length_cons, List.range_succ_eq_map, List.find?_cons]
    by_cases h0 : viableMarkerAt (c :: cs) 0 = true
    · obtain ⟨h1, h2, h3⟩ := hiff.mp h0
      rw [markerCapture]
      rw [if_pos ⟨h1, h2, h3⟩, h0]
      simp
    · have hnot : ¬(startsWithChars projectsMarker (c :: cs) = true ∧
          (c :: cs).drop projectsMarker.length ≠ [] ∧
          ((c :: cs).drop projectsMarker.length).all (fun d => !isJsLineTerminator d) = true) :=
        fun hc => h0 (hiff.mpr hc)
      rw [markerCapture]
      rw [if_neg hnot]
      have hb0 : viableMarkerAt (c :: cs) 0 = false := by
        cases hv : viableMarkerAt (c :: cs) 0 with
        | false => rfl
        | true => exact absurd hv h0
      rw [hb0]
      simp only [List.find?_map]
      have hcomp : (viableMarkerAt (c :: cs)) ∘ Nat.succ = viableMarkerAt cs := by
        funext i
        exact viableMarkerAt_succ c cs i
      rw [hcomp, ih]
      cases hf : (List.range cs.length).find? (viableMarkerAt cs) with
      | none => rfl
      | some i =>
        have h1 : Nat.succ i + projectsMarker.length = (i + projectsMarker.length) + 1 := by
          omega
        simp [h1, List.drop_succ_cons]

/-- C9 amended: `extractProjectSlug` returns the suffix after the first
occurrence of the marker that is followed by a non-empty suffix free of line
terminators; when the marker is absent, or occurs only with nothing (or a
line terminator) after it, the raw parent directory name is returned —
so every entry still receives some project value. -/
theorem c9_amended (sessionPath : String) :
    extractProjectSlug sessionPath = slugAmendedC9 (pathBasename (pathDirname sessionPath)) := by
  rw [extractProjectSlug, slugAmendedC9]
  rw [markerCapture_eq_find]
  cases (List.range (pathBasename (pathDirname sessionPath)).toList.length).find?
      (viableMarkerAt (pathBasename (pathDirname sessionPath)).toList) with
  | none => rfl
  | some i => rfl

/-! ### C7 — malformed JSONL lines are skipped individually -/

/-- Whitespace-only-ness distributes over string append. -/
theorem jsTrimEmpty_append (a b : String) :
    jsTrimEmpty (a ++ b) = (jsTrimEmpty a && jsTrimEmpty b) := by
  simp [jsTrimEmpty, String.toList, String.data_append]

/-- A newline-joined file trims to nothing exactly when every line does. -/
theorem jsTrimEmpty_joinLines (xs : List String) :
    jsTrimEmpty (joinLines "\n" xs) = xs.all jsTrimEmpty := by
  induction xs with
  | nil => rfl
  | cons x xs ih =>
    cases xs with
    | nil => simp [joinLines]
    | cons y ys =>
      rw [joinLines, jsTrimEmpty_append, jsTrimEmpty_append, ih]
      simp [show jsTrimEmpty "\n" = true from by decide, Bool.and_assoc]

/-- Dropping the malformed (non-blank, unparseable) lines does not change the
parsed line list: those lines are already skipped by the per-line try/catch. -/
theorem parsedSessionLines_filter (jsonParse : String → Option ClaudeJsonlLine)
    (rawLines : List String) :
    parsedSessionLines jsonParse
        (rawLines.filter (fun l => jsTrimEmpty l || (jsonParse l).isSome)) =
      parsedSessionLines jsonParse rawLines := by
  induction rawLines with
  | nil => rfl
  | cons l ls ih =>
    unfold parsedSessionLines at ih ⊢
    by_cases hk : (jsTrimEmpty l || (jsonParse l).isSome) = true
    · simp only [List.filter_cons, hk, if_pos, List.filterMap_cons, ih]
    · rw [Bool.or_eq_true] at hk
      push_neg at hk
      obtain ⟨hb, hs⟩ := hk
      have hbf : jsTrimEmpty l = false := by
        cases hv : jsTrimEmpty l with
        | false => rfl
        | true => exact absurd hv hb
      have hpn : jsonParse l = none := by
        cases hp : jsonParse l with
        | none => rfl
        | some v => exact absurd (by simp [hp]) hs
      simp [List.filter_cons, hbf, hs, List.filterMap_cons, hpn, ih]

/-- A file of only blank lines parses to no lines at all. -/
theorem parsedSessionLines_nil_of_blank (jsonParse : String → Option ClaudeJsonlLine)
    (rawLines : List String) (h : ∀ l ∈ rawLines, jsTrimEmpty l = true) :
    parsedSessionLines jsonParse rawLines = [] := by
  unfold parsedSessionLines
  rw [List.filterMap_eq_nil_iff]
  intro l hl
  simp [h l hl]

/-- C7: `buildClaudeSessionEntry` computes the same entry on the original
file and on the file with its malformed (non-blank, unparseable) lines
removed — each malformed line is skipped individually and never rejects the
whole file. -/
theorem c7_malformed_lines_skipped (jsonParse : String → Option ClaudeJsonlLine)
    (hashFn : String → String) (absPath : String) (rawLines : List String) :
    buildClaudeSessionEntry jsonParse hashFn absPath (some rawLines) =
      buildClaudeSessionEntry jsonParse hashFn absPath
        (some (rawLines.filter (fun l => jsTrimEmpty l || (jsonParse l).isSome))) := by
  by_cases h1 : jsTrimEmpty (joinLines "\n" rawLines) = true
  · have hall : ∀ l ∈ rawLines, jsTrimEmpty l = true := by
      rw [jsTrimEmpty_joinLines] at h1
      exact fun l hl => List.all_eq_true.mp h1 l hl
    have hfe : rawLines.filter (fun l => jsTrimEmpty l || (jsonParse l).isSome) = rawLines :=
      List.filter_eq_self.mpr (fun l hl => by simp [hall l hl])
    rw [hfe]
  · by_cases h2 : jsTrimEmpty (joinLines "\n"
        (rawLines.filter (fun l => jsTrimEmpty l || (jsonParse l).isSome))) = true
    · have hallf : ∀ l ∈ rawLines.filter (fun l => jsTrimEmpty l || (jsonParse l).isSome),
          jsTrimEmpty l = true := by
        rw [jsTrimEmpty_joinLines] at h2
        exact fun l hl => List.all_eq_true.mp h2 l hl
      have hpf : parsedSessionLines jsonParse
          (rawLines.filter (fun l => jsTrimEmpty l || (jsonParse l).isSome)) = [] :=
        parsedSessionLines_nil_of_blank jsonParse _ hallf
      have hp : parsedSessionLines jsonParse rawLines = [] := by
        rw [← parsedSessionLines_filter]
        exact hpf
      simp [buildClaudeSessionEntry, h1, h2, hp, extractClaudeSessionText, joinLines]
    · simp [buildClaudeSessionEntry, h1, h2, parsedSessionLines_filter, sessionIdOfLines]

/-! ### C2 — the concrete project-filter scenario -/

/-- The chunk ids returned by the in-memory fallback of `searchVector`, in
closed form. -/
theorem searchVector_fallback_ids (sim : List ℚ → List ℚ → Option ℚ)
    (vecDist : List ℚ → List ℚ → ℚ) (db : SearchDb) (providerModel : String)
    (queryVec : List ℚ) (limit : Int) (snippetMaxChars : Nat)
    (srcV srcC : ChunkRow → Bool) (project : Option String)
    (hguard : ¬(queryVec = [] ∨ limit ≤ 0)) :
    (searchVector sim vecDist db providerModel queryVec limit snippetMaxChars
        false srcV srcC project).map (·.id) =
      (((sortDescBy (fun cs => cs.2)
          ((listChunks db providerModel srcC (buildProjectFilter project)).filterMap
            (fun c => (sim queryVec c.embedding).map (fun s => (c, s))))).take
          limit.toNat).map (fun cs => cs.1.id)) := by
  rw [searchVector, if_neg hguard]
  simp [List.map_map, Function.comp_def]

/-- C2: on a store with three chunks of the same model whose projects are
"project-a", "project-b" and NULL, the vector search filtered to
"project-a" returns exactly the "project-a" chunk, and the unfiltered search
returns all three chunks. -/
theorem c2_project_filter_scenario (sim : List ℚ → List ℚ → Option ℚ)
    (vecDist : List ℚ → List ℚ → ℚ)
    (hsim : ∃ s, sim [1, 0] [1, 0] = some s) :
    ((searchVector sim vecDist dbThreeProjects "mock-model" [1, 0] 10 500 false
        (fun _ => true) (fun _ => true) (some "project-a")).map (·.id) = ["chunk-a1"]) ∧
    ((searchVector sim vecDist dbThreeProjects "mock-model" [1, 0] 10 500 false
        (fun _ => true) (fun _ => true) none).map (·.id)).Perm
      ["chunk-a1", "chunk-b1", "chunk-c1"] := by
  obtain ⟨s, hs⟩ := hsim
  have hguard : ¬(([1, 0] : List ℚ) = [] ∨ (10 : Int) ≤ 0) := by decide
  have hcandA : listChunks dbThreeProjects "mock-model" (fun _ => true)
      (buildProjectFilter (some "project-a")) = [chunkA] := by decide
  have hcandAll : listChunks dbThreeProjects "mock-model" (fun _ => true)
      (buildProjectFilter none) = [chunkA, chunkB, nullProjectChunk] := by decide
  have hEmbA : chunkA.embedding = [1, 0] := by decide
  have hEmbB : chunkB.embedding = [1, 0] := by decide
  have hEmbC : nullProjectChunk.embedding = [1, 0] := by decide
  constructor
  · rw [searchVector_fallback_ids sim vecDist _ _ _ _ _ _ _ _ hguard, hcandA]
    simp [hEmbA, hs, sortDescBy, insertDescBy]
    decide
  · rw [searchVector_fallback_ids sim vecDist _ _ _ _ _ _ _ _ hguard, hcandAll]
    have hscored : ([chunkA, chunkB, nullProjectChunk].filterMap
        (fun c => (sim [1, 0] c.embedding).map (fun sc => (c, sc)))) =
        [(chunkA, s), (chunkB, s), (nullProjectChunk, s)] := by
      simp [List.filterMap_cons, hEmbA, hEmbB, hEmbC, hs]
    rw [hscored]
    have hperm := sortDescBy_perm (fun cs : ChunkRow × ℚ => cs.2)
      [(chunkA, s), (chunkB, s), (nullProjectChunk, s)]
    have hlen : (sortDescBy (fun cs : ChunkRow × ℚ => cs.2)
        [(chunkA, s), (chunkB, s), (nullProjectChunk, s)]).length ≤ (10 : Int).toNat := by
      rw [hperm.length_eq]
      simp only [List.length_cons, List.length_nil]
      omega
    rw [List.take_of_length_le hlen]
    have := hperm.map (fun cs : ChunkRow × ℚ => cs.1.id)
    simpa using this

/-- Witness for C2 with a concrete similarity function. -/
theorem c2_project_filter_scenario_witness :
    ((searchVector (fun _ _ => some 1) (fun _ _ => 0) dbThreeProjects "mock-model" [1, 0] 10 500
        false (fun _ => true) (fun _ => true) (some "project-a")).map (·.id) = ["chunk-a1"]) ∧
    ((searchVector (fun _ _ => some 1) (fun _ _ => 0) dbThreeProjects "mock-model" [1, 0] 10 500
        false (fun _ => true) (fun _ => true) none).map (·.id)).Perm
      ["chunk-a1", "chunk-b1", "chunk-c1"] :=
  c2_project_filter_scenario (fun _ _ => some 1) (fun _ _ => 0) ⟨1, rfl⟩

/-! ### C5 — dangling index rows after chunk deletion -/

/-- C5 counterexample: with full-text search disabled, deleting a stale
scribe file removes its chunk but not its full-text row, so a dangling
full-text row survives the cleanup — the pruning is not unconditional. -/
theorem c5_counterexample :
    danglingFreeIndices dbScribeOne ∧
    ¬ danglingFreeIndices (reconcileScribeStale false true "m" dbScribeOne []) := by
  constructor
  · constructor
    · intro v hv
      simp [dbScribeOne] at hv
    · intro f hf
      have hfe : f = scribeFtsRow := by
        simpa [dbScribeOne] using hf
      subst hfe
      exact ⟨scribeChunk, by decide, by decide⟩
  · intro h
    obtain ⟨-, hfts⟩ := h
    have hmem : scribeFtsRow ∈ (reconcileScribeStale false true "m" dbScribeOne []).fts := by
      decide
    obtain ⟨c, hc, -⟩ := hfts scribeFtsRow hmem
    have : (reconcileScribeStale false true "m" dbScribeOne []).chunks = [] := by decide
    rw [this] at hc
    exact absurd hc (List.not_mem_nil c)

/-- One cleanup iteration preserves vector-index coherence: the vector rows
it deletes are exactly those of the chunks it deletes, computed while those
chunks are still present. -/
theorem reconcileStep_vecCoherent (fe fa : Bool) (model p : String) (st : SyncDb)
    (h : vecIndexCoherent st) :
    vecIndexCoherent (reconcileScribeStep fe fa model st p) := by
  intro v hv
  simp only [reconcileScribeStep, List.mem_filter, decide_eq_true_eq] at hv
  obtain ⟨hv1, hv2⟩ := hv
  obtain ⟨c, hc, hcid⟩ := h v hv1
  refine ⟨c, ?_, hcid⟩
  simp only [reconcileScribeStep, List.mem_filter, decide_eq_true_eq]
  refine ⟨hc, ?_⟩
  intro hcontra
  apply hv2
  rw [← hcid]
  exact List.mem_map_of_mem _
    (List.mem_filter.mpr ⟨hc, by simp [hcontra.1, hcontra.2]⟩)

/-- One cleanup iteration preserves full-text coherence when FTS is enabled
and available: the full-text delete is scoped by the same path and source as
the chunk delete and by the active model, which coherence guarantees. -/
theorem reconcileStep_ftsCoherent (model p : String) (st : SyncDb)
    (h : ftsIndexCoherent st model) :
    ftsIndexCoherent (reconcileScribeStep true true model st p) model := by
  intro f hf
  simp only [reconcileScribeStep, Bool.and_self, if_pos, List.mem_filter,
    decide_eq_true_eq] at hf
  obtain ⟨hf1, hf2⟩ := hf
  obtain ⟨c, hc, hcid, hcp, hcs, hfm⟩ := h f hf1
  refine ⟨c, ?_, hcid, hcp, hcs, hfm⟩
  simp only [reconcileScribeStep, List.mem_filter, decide_eq_true_eq]
  refine ⟨hc, ?_⟩
  intro hcontra
  exact hf2 ⟨by rw [← hcp, hcontra.1], by rw [← hcs, hcontra.2], hfm⟩

/-- Folding the cleanup over any path list preserves vector coherence. -/
theorem reconcileFold_vecCoherent (fe fa : Bool) (model : String) (ps : List String)
    (st : SyncDb) (h : vecIndexCoherent st) :
    vecIndexCoherent (ps.foldl (reconcileScribeStep fe fa model) st) := by
  induction ps generalizing st with
  | nil => exact h
  | cons p ps ih => exact ih _ (reconcileStep_vecCoherent fe fa model p st h)

/-- Folding the cleanup over any path list preserves full-text coherence when
FTS is enabled and available. -/
theorem reconcileFold_ftsCoherent (model : String) (ps : List String)
    (st : SyncDb) (h : ftsIndexCoherent st model) :
    ftsIndexCoherent (ps.foldl (reconcileScribeStep true true model) st) model := by
  induction ps generalizing st with
  | nil => exact h
  | cons p ps ih => exact ih _ (reconcileStep_ftsCoherent model p st h)

/-- C5 amended: after the stale-record cleanup, every vector-index row still
corresponds to a live chunk (for chunks of every model) provided it did
before; full-text rows are pruned only when FTS is enabled and available, and
then only rows of the active model, so full-text coherence is preserved only
under those conditions (`c5_counterexample` shows it fails otherwise). -/
theorem c5_amended (fe fa : Bool) (model : String) (db : SyncDb)
    (activePaths : List String)
    (hVec : vecIndexCoherent db)
    (hFts : fe = true → fa = true → ftsIndexCoherent db model) :
    vecIndexCoherent (reconcileScribeStale fe fa model db activePaths) ∧
    (fe = true → fa = true →
      ftsIndexCoherent (reconcileScribeStale fe fa model db activePaths) model) := by
  constructor
  · exact reconcileFold_vecCoherent fe fa model _ db hVec
  · intro hfe hfa
    subst hfe hfa
    exact reconcileFold_ftsCoherent model _ db (hFts rfl rfl)

/-- Witness for C5 amended on a concrete coherent store. -/
theorem c5_amended_witness :
    vecIndexCoherent (reconcileScribeStale true true "m" dbScribeAndMemory []) ∧
    (true = true → true = true →
      ftsIndexCoherent (reconcileScribeStale true true "m" dbScribeAndMemory []) "m") :=
  c5_amended true true "m" dbScribeAndMemory []
    (by unfold vecIndexCoherent; decide)
    (fun _ _ => by unfold ftsIndexCoherent; decide)

/-! ### C6 — stale-record reconciliation: deletions and frame -/

/-- The cleanup fold only ever deletes `files` rows. -/
theorem foldStep_files_sub (fe fa : Bool) (model : String) (ps : List String) :
    ∀ (st : SyncDb) (fr : FileRow),
      fr ∈ (ps.foldl (reconcileScribeStep fe fa model) st).files → fr ∈ st.files := by
  induction ps with
  | nil => exact fun st fr h => h
  | cons q qs ih =>
    intro st fr h
    simp only [List.foldl_cons] at h
    have := ih _ fr h
    simp only [reconcileScribeStep, List.mem_filter] at this
    exact this.1

/-- The cleanup fold only ever deletes `chunks` rows. -/
theorem foldStep_chunks_sub (fe fa : Bool) (model : String) (ps : List String) :
    ∀ (st : SyncDb) (c : ChunkRow),
      c ∈ (ps.foldl (reconcileScribeStep fe fa model) st).chunks → c ∈ st.chunks := by
  induction ps with
  | nil => exact fun st c h => h
  | cons q qs ih =>
    intro st c h
    simp only [List.foldl_cons] at h
    have := ih _ c h
    simp only [reconcileScribeStep, List.mem_filter] at this
    exact this.1

/-- The cleanup fold only ever deletes vector rows. -/
theorem foldStep_vec_sub (fe fa : Bool) (model : String) (ps : List String) :
    ∀ (st : SyncDb) (v : VecRow),
      v ∈ (ps.foldl (reconcileScribeStep fe fa model) st).vec → v ∈ st.vec := by
  induction ps with
  | nil => exact fun st v h => h
  | cons q qs ih =>
    intro st v h
    simp only [List.foldl_cons] at h
    have := ih _ v h
    simp only [reconcileScribeStep, List.mem_filter] at this
    exact this.1

/-- Once a path of the list is processed, its scribe `files` rows are gone. -/
theorem foldStep_files_remove (fe fa : Bool) (model : String) (ps : List String) :
    ∀ (st : SyncDb), ∀ p ∈ ps, ∀ fr : FileRow, fr.path = p → fr.source = "scribe" →
      fr ∉ (ps.foldl (reconcileScribeStep fe fa model) st).files := by
  induction ps with
  | nil => intro st p hp; cases hp
  | cons q qs ih =>
    intro st p hp fr hpath hsrc hmem
    simp only [List.foldl_cons] at hmem
    rcases List.mem_cons.mp hp with heq | htail
    · subst heq
      have hin := foldStep_files_sub fe fa model qs _ fr hmem
      simp only [reconcileScribeStep, List.mem_filter, decide_eq_true_eq] at hin
      exact hin.2 ⟨hpath, hsrc⟩
    · exact ih _ p htail fr hpath hsrc hmem

/-- Once a path of the list is processed, its scribe chunks are gone. -/
theorem foldStep_chunks_remove (fe fa : Bool) (model : String) (ps : List String) :
    ∀ (st : SyncDb), ∀ p ∈ ps, ∀ c : ChunkRow, c.path = p → c.source = "scribe" →
      c ∉ (ps.foldl (reconcileScribeStep fe fa model) st).chunks := by
  induction ps with
  | nil => intro st p hp; cases hp
  | cons q qs ih =>
    intro st p hp c hpath hsrc hmem
    simp only [List.foldl_cons] at hmem
    rcases List.mem_cons.mp hp with heq | htail
    · subst heq
      have hin := foldStep_chunks_sub fe fa model qs _ c hmem
      simp only [reconcileScribeStep, List.mem_filter, decide_eq_true_eq] at hin
      exact hin.2 ⟨hpath, hsrc⟩
    · exact ih _ p htail c hpath hsrc hmem

/-- Once a path of the list is processed, the vector rows of its scribe
chunks are gone: the subquery collects those chunk ids while the chunks are
still present. -/
theorem foldStep_vec_remove (fe fa : Bool) (model : String) (ps : List String) :
    ∀ (st : SyncDb), ∀ p ∈ ps, ∀ c : ChunkRow, c ∈ st.chunks → c.path = p →
      c.source = "scribe" → ∀ v : VecRow, c.id = v.id →
      v ∉ (ps.foldl (reconcileScribeStep fe fa model) st).vec := by
  induction ps with
  | nil => intro st p hp; cases hp
  | cons q qs ih =>
    intro st p hp c hc hcp hcs v hid hmem
    simp only [List.foldl_cons] at hmem
    by_cases hq : c.path = q ∧ c.source = "scribe"
    · have hin := foldStep_vec_sub fe fa model qs _ v hmem
      simp only [reconcileScribeStep, List.mem_filter, decide_eq_true_eq] at hin
      apply hin.2
      rw [← hid]
      exact List.mem_map_of_mem _ (List.mem_filter.mpr ⟨hc, by simp [hq.1, hq.2]⟩)
    · have hpq : p ≠ q := fun h => hq ⟨by rw [hcp, h], hcs⟩
      have htail : p ∈ qs := by
        rcases List.mem_cons.mp hp with h | h
        · exact absurd h hpq
        · exact h
      have hc1 : c ∈ (reconcileScribeStep fe fa model st q).chunks := by
        simp only [reconcileScribeStep, List.mem_filter, decide_eq_true_eq]
        exact ⟨hc, hq⟩
      exact ih _ p htail c hc1 hcp hcs v hid hmem

/-- Non-scribe `files` rows survive the whole cleanup fold. -/
theorem foldStep_files_frame (fe fa : Bool) (model : String) (ps : List String) :
    ∀ (st : SyncDb) (fr : FileRow), fr ∈ st.files → fr.source ≠ "scribe" →
      fr ∈ (ps.foldl (reconcileScribeStep fe fa model) st).files := by
  induction ps with
  | nil => exact fun st fr h _ => h
  | cons q qs ih =>
    intro st fr h hsrc
    simp only [List.foldl_cons]
    refine ih _ fr ?_ hsrc
    simp only [reconcileScribeStep, List.mem_filter, decide_eq_true_eq]
    exact ⟨h, fun hcontra => hsrc hcontra.2⟩

/-- Non-scribe chunks survive the whole cleanup fold. -/
theorem foldStep_chunks_frame (fe fa : Bool) (model : String) (ps : List String) :
    ∀ (st : SyncDb) (c : ChunkRow), c ∈ st.chunks → c.source ≠ "scribe" →
      c ∈ (ps.foldl (reconcileScribeStep fe fa model) st).chunks := by
  induction ps with
  | nil => exact fun st c h _ => h
  | cons q qs ih =>
    intro st c h hsrc
    simp only [List.foldl_cons]
    refine ih _ c ?_ hsrc
    simp only [reconcileScribeStep, List.mem_filter, decide_eq_true_eq]
    exact ⟨h, fun hcontra => hsrc hcontra.2⟩

/-- Non-scribe full-text rows survive the whole cleanup fold. -/
theorem foldStep_fts_frame (fe fa : Bool) (model : String) (ps : List String) :
    ∀ (st : SyncDb) (f : FtsRow), f ∈ st.fts → f.source ≠ "scribe" →
      f ∈ (ps.foldl (reconcileScribeStep fe fa model) st).fts := by
  induction ps with
  | nil => exact fun st f h _ => h
  | cons q qs ih =>
    intro st f h hsrc
    simp only [List.foldl_cons]
    refine ih _ f ?_ hsrc
    by_cases hef : (fe && fa) = true
    · simp only [reconcileScribeStep, hef, if_pos, List.mem_filter, decide_eq_true_eq]
      exact ⟨h, fun hcontra => hsrc hcontra.2.1⟩
    · simp only [reconcileScribeStep, hef]
      simpa using h

/-- Vector rows whose id belongs to no scribe chunk survive the cleanup. -/
theorem foldStep_vec_frame (fe fa : Bool) (model : String) (ps : List String) :
    ∀ (st : SyncDb) (v : VecRow), v ∈ st.vec →
      (∀ c ∈ st.chunks, c.id = v.id → c.source ≠ "scribe") →
      v ∈ (ps.foldl (reconcileScribeStep fe fa model) st).vec := by
  induction ps with
  | nil => exact fun st v h _ => h
  | cons q qs ih =>
    intro st v h hno
    simp only [List.foldl_cons]
    refine ih _ v ?_ ?_
    · simp only [reconcileScribeStep, List.mem_filter, decide_eq_true_eq]
      refine ⟨h, ?_⟩
      intro hcontra
      obtain ⟨c, hcf, hcid⟩ := List.mem_map.mp hcontra
      have hcm := List.mem_filter.mp hcf
      have := hno c hcm.1 hcid
      exact this (of_decide_eq_true hcm.2).2
    · intro c hc hcid
      simp only [reconcileScribeStep, List.mem_filter, decide_eq_true_eq] at hc
      exact hno c hc.1 hcid

/-- C6: after a source's sync pass, the stale-record reconciliation (which
runs only once all of the source's per-file index tasks have finished)
deletes every files/chunks/vector-index row of source "scribe" whose path is
no longer reported by the adapter (`activePaths`), and every deletion
predicate includes the source, so rows belonging to every other source are
left unchanged.  The hypothesis is the store's documented invariant that
every chunk references an existing file record of its source. -/
theorem c6_stale_reconciliation_scoped (fe fa : Bool) (model : String)
    (db : SyncDb) (activePaths : List String)
    (hRef : ∀ c ∈ db.chunks, c.source = "scribe" →
      ∃ fr ∈ db.files, fr.path = c.path ∧ fr.source = "scribe") :
    (∀ fr ∈ db.files, fr.source = "scribe" → fr.path ∉ activePaths →
      fr ∉ (reconcileScribeStale fe fa model db activePaths).files) ∧
    (∀ c ∈ db.chunks, c.source = "scribe" → c.path ∉ activePaths →
      c ∉ (reconcileScribeStale fe fa model db activePaths).chunks) ∧
    (∀ v ∈ db.vec, (∃ c ∈ db.chunks, c.id = v.id ∧ c.source = "scribe" ∧
        c.path ∉ activePaths) →
      v ∉ (reconcileScribeStale fe fa model db activePaths).vec) ∧
    (∀ fr ∈ db.files, fr.source ≠ "scribe" →
      fr ∈ (reconcileScribeStale fe fa model db activePaths).files) ∧
    (∀ c ∈ db.chunks, c.source ≠ "scribe" →
      c ∈ (reconcileScribeStale fe fa model db activePaths).chunks) ∧
    (∀ f ∈ db.fts, f.source ≠ "scribe" →
      f ∈ (reconcileScribeStale fe fa model db activePaths).fts) ∧
    (∀ v ∈ db.vec, (∀ c ∈ db.chunks, c.id = v.id → c.source ≠ "scribe") →
      v ∈ (reconcileScribeStale fe fa model db activePaths).vec) := by
  have hstale : ∀ fr ∈ db.files, fr.source = "scribe" → fr.path ∉ activePaths →
      fr.path ∈ ((db.files.filter (fun r => decide (r.source = "scribe"))).map
        (·.path)).filter (fun p => decide (p ∉ activePaths)) := by
    intro fr h1 h2 h3
    refine List.mem_filter.mpr ⟨?_, by simp [h3]⟩
    exact List.mem_map_of_mem _ (List.mem_filter.mpr ⟨h1, by simp [h2]⟩)
  unfold reconcileScribeStale
  refine ⟨?_, ?_, ?_, ?_, ?_, ?_, ?_⟩
  · intro fr h1 h2 h3
    exact foldStep_files_remove fe fa model _ db fr.path (hstale fr h1 h2 h3) fr rfl h2
  · intro c h1 h2 h3
    obtain ⟨fr, hfr, hfp, hfs⟩ := hRef c h1 h2
    have hpmem := hstale fr hfr hfs (by rw [hfp]; exact h3)
    rw [hfp] at hpmem
    exact foldStep_chunks_remove fe fa model _ db c.path hpmem c rfl h2
  · intro v h1 h2
    obtain ⟨c, hc, hcid, hcs, hcp⟩ := h2
    obtain ⟨fr, hfr, hfp, hfs⟩ := hRef c hc hcs
    have hpmem := hstale fr hfr hfs (by rw [hfp]; exact hcp)
    rw [hfp] at hpmem
    exact foldStep_vec_remove fe fa model _ db c.path hpmem c hc rfl hcs v hcid
  · intro fr h1 h2
    exact foldStep_files_frame fe fa model _ db fr h1 h2
  · intro c h1 h2
    exact foldStep_chunks_frame fe fa model _ db c h1 h2
  · intro f h1 h2
    exact foldStep_fts_frame fe fa model _ db f h1 h2
  · intro v h1 h2
    exact foldStep_vec_frame fe fa model _ db v h1 h2

/-- Witness for C6 on a concrete two-source store with no active paths. -/
theorem c6_stale_reconciliation_scoped_witness :
    (∀ fr ∈ dbScribeAndMemory.files, fr.source = "scribe" →
      fr.path ∉ ([] : List String) →
      fr ∉ (reconcileScribeStale true true "m" dbScribeAndMemory []).files) ∧
    (∀ c ∈ dbScribeAndMemory.chunks, c.source = "scribe" →
      c.path ∉ ([] : List String) →
      c ∉ (reconcileScribeStale true true "m" dbScribeAndMemory []).chunks) ∧
    (∀ v ∈ dbScribeAndMemory.vec, (∃ c ∈ dbScribeAndMemory.chunks, c.id = v.id ∧
        c.source = "scribe" ∧ c.path ∉ ([] : List String)) →
      v ∉ (reconcileScribeStale true true "m" dbScribeAndMemory []).vec) ∧
    (∀ fr ∈ dbScribeAndMemory.files, fr.source ≠ "scribe" →
      fr ∈ (reconcileScribeStale true true "m" dbScribeAndMemory []).files) ∧
    (∀ c ∈ dbScribeAndMemory.chunks, c.source ≠ "scribe" →
      c ∈ (reconcileScribeStale true true "m" dbScribeAndMemory []).chunks) ∧
    (∀ f ∈ dbScribeAndMemory.fts, f.source ≠ "scribe" →
      f ∈ (reconcileScribeStale true true "m" dbScribeAndMemory []).fts) ∧
    (∀ v ∈ dbScribeAndMemory.vec, (∀ c ∈ dbScribeAndMemory.chunks, c.id = v.id →
        c.source ≠ "scribe") →
      v ∈ (reconcileScribeStale true true "m" dbScribeAndMemory []).vec) :=
  c6_stale_reconciliation_scoped true true "m" dbScribeAndMemory [] (by decide)
